import Mathlib

/-!
Verification of the plant-disease backend serving pipeline.

The definitions below are a shallow embedding of the JavaScript source:
the label-map construction and manual shard-weight loading from the
server's `initialize` routine, the image preprocessing chain
(`fromPixels → toFloat → div(255) → expandDims`), the argmax /
confidence extraction, the label and remedy fallbacks, and the
`POST /predict` handler with its try/catch/finally cleanup.
Machine floats are modelled by `ℚ`; byte buffers by `List Nat`;
the filesystem by a predicate `String → Bool`.
-/

/-- JS `Object.keys(m).sort((a, b) => a - b)`: the comparator coerces the
string keys to numbers, so the keys (modelled as `Nat`) are sorted
ascending.  Keys of a JS object are distinct, so any correct sort yields
the same list; we model it with `List.insertionSort`. -/
def sortKeysAsc (keys : List Nat) : List Nat :=
  List.insertionSort (· ≤ ·) keys

/-- Label construction `labels = Object.keys(classIndices).sort((a, b) => a - b).map((key) => classIndices[key])`
from the server's `initialize` routine.  The JSON mapping is modelled as an
association list with numeric (already coerced) keys; `classIndices[key]`
for a key produced by `Object.keys` always succeeds, the `""` default is
unreachable there. -/
def buildLabels (classIndices : List (Nat × String)) : List String :=
  (sortKeysAsc (classIndices.map Prod.fst)).map fun k =>
    (classIndices.lookup k).getD ""

/-- The mapping `classIndices` as written by `train_model.js`:
`labels.forEach((label, i) => (classIndices[i] = label))`, i.e. the
association list `[(0, l₀), (1, l₁), …]`. -/
def trainClassIndices (labels : List String) : List (Nat × String) :=
  labels.enum

/-- One weight specification from the manifest (name, shape, dtype);
opaque payload passed through unmodified. -/
structure WeightSpec where
  name : String
  shape : List Nat
  dtype : String
deriving DecidableEq

/-- Manifest entry `modelJson.weightsManifest[0]`: an ordered list of shard file paths and
an ordered list of weight specifications. -/
structure WeightsManifestEntry where
  paths : List String
  weights : List WeightSpec

/-- What the custom IO handler's `load` returns to `tf.loadLayersModel`:
the weight specs and the combined weight byte buffer. -/
structure ModelArtifacts where
  weightSpecs : List WeightSpec
  weightData : List Nat

/-- The manual weight loading of `initialize`:
`weightBuffers = shardPaths.map((p) => fs.readFileSync(...))`,
`combinedWeights = Buffer.concat(weightBuffers)`, exposed with
`weightSpecs: modelJson.weightsManifest[0].weights` unmodified.
`readFile` maps a shard path to its byte contents. -/
def loadModelArtifacts (readFile : String → List Nat)
    (m : WeightsManifestEntry) : ModelArtifacts :=
  let weightBuffers := m.paths.map readFile
  let combinedWeights := weightBuffers.flatten
  { weightSpecs := m.weights, weightData := combinedWeights }

/-- A numeric tensor: a shape and flat data, floats modelled by `ℚ`. -/
structure Tensor where
  shape : List Nat
  data : List ℚ

/-- JS `tf.browser.fromPixels(canvas)` on the 224×224 canvas: an int tensor of
shape `[224, 224, 3]` whose entries are the pixel channel values
(`toFloat` then makes them floats; over `ℚ` the cast is the identity on
the value). -/
def fromPixels (pixels : List Nat) : Tensor :=
  { shape := [224, 224, 3], data := pixels.map fun v : Nat => (v : ℚ) }

/-- JS `.div(tf.scalar(s))`: elementwise division. -/
def Tensor.divScalar (t : Tensor) (s : ℚ) : Tensor :=
  { shape := t.shape, data := t.data.map fun v => v / s }

/-- JS `.expandDims()`: prepend a batch dimension of size 1. -/
def Tensor.expandDims (t : Tensor) : Tensor :=
  { shape := 1 :: t.shape, data := t.data }

/-- The preprocessing chain of the `/predict` handler:
`tf.browser.fromPixels(canvas).toFloat().div(tf.scalar(255.0)).expandDims()`. -/
def preprocess (pixels : List Nat) : Tensor :=
  ((fromPixels pixels).divScalar 255).expandDims

/-- JS `Math.max(...data)`: fold of binary max over the elements (0 on the
empty list, which the handler never produces: the model output has
`labelCount ≥ 1` entries). -/
def mathMax : List ℚ → ℚ
  | [] => 0
  | x :: xs => xs.foldl max x

/-- JS `data.indexOf(v)`: index of the first occurrence of `v`, length of the
list when absent (JS returns −1; either way it is out of bounds). -/
def indexOfQ (v : ℚ) : List ℚ → Nat
  | [] => 0
  | x :: xs => if x = v then 0 else indexOfQ v xs + 1

/-- JS `const maxIdx = data.indexOf(Math.max(...data))`. -/
def maxIdx (data : List ℚ) : Nat :=
  indexOfQ (mathMax data) data

/-- JS `x.toFixed(2)` on a nonnegative number: round to the nearest multiple
of 1/100 (ties upward, as JS picks the larger candidate). -/
def toFixed2 (x : ℚ) : ℚ :=
  (round (x * 100) : ℤ) / 100

/-- JS `const confidence = (data[maxIdx] * 100).toFixed(2)`. -/
def reportedConfidence (data : List ℚ) : ℚ :=
  toFixed2 (data.getD (maxIdx data) 0 * 100)

/-- Spec formula `confidencePercent = round(confidence01 * 100, 2 decimals)` applied to
a single confidence value in `[0, 1]`. -/
def confidencePercentOf (c : ℚ) : ℚ :=
  toFixed2 (c * 100)

/-- JS `const label = labels[maxIdx] || "Unknown"`: out-of-bounds access gives
`undefined` and the empty string is falsy, both fall back to
`"Unknown"`. -/
def resolveLabel (labels : List String) (i : Nat) : String :=
  match labels[i]? with
  | none => "Unknown"
  | some s => if s = "" then "Unknown" else s

/-- A remedy catalog entry: `{solution, pesticide}`. -/
structure RemedyEntry where
  solution : String
  pesticide : String
deriving DecidableEq

/-- The fixed default remedy used when the catalog misses. -/
def defaultRemedy : RemedyEntry :=
  { solution := "Use proper fertilizers and care."
    pesticide := "Apply recommended pesticide." }

/-- JS `const info = solutions[label] || { ...default... }`: the catalog is an
association list from label to entry; an absent catalog is `[]` and every
lookup then misses. -/
def lookupRemedy (solutions : List (String × RemedyEntry)) (label : String) :
    RemedyEntry :=
  (solutions.lookup label).getD defaultRemedy

/-- Body of the handler's JSON reply: `{status:"success", label, confidence,
solution, pesticide}` on success, `{status:"error", message}` on failure. -/
inductive RespBody
  | success (label : String) (confidence : ℚ) (solution : String)
      (pesticide : String)
  | failure (message : String)
deriving DecidableEq

/-- The `try` block of the `POST /predict` handler.  `modelLoaded` is
whether `initialize` has assigned `model` yet (`if (!model) throw ...`);
`decoded` is the result of `loadImage`/canvas decoding (its error message
when the upload cannot be decoded); `predictFn` is `model.predict`
composed with `.data()` (its error message on any internal failure).
Success yields status 200 with the resolved label, confidence, and remedy
texts. -/
def runPredict (modelLoaded : Bool) (decoded : Except String (List Nat))
    (predictFn : Tensor → Except String (List ℚ))
    (labels : List String) (solutions : List (String × RemedyEntry)) :
    Except String (Nat × RespBody) := do
  if !modelLoaded then
    throw "Model not loaded yet."
  else
    let pixels ← decoded
    let data ← predictFn (preprocess pixels)
    let i := maxIdx data
    let label := resolveLabel labels i
    let info := lookupRemedy solutions label
    pure (200, RespBody.success label (reportedConfidence data)
      info.solution info.pesticide)

/-- JS `fs.existsSync`: the filesystem is the predicate of existing paths. -/
def existsSync (fs : String → Bool) (p : String) : Bool := fs p

/-- JS `fs.unlinkSync`: remove a path from the filesystem. -/
def unlinkSync (fs : String → Bool) (p : String) : String → Bool :=
  fun q => if q = p then false else fs q

/-- The handler's `finally` block:
`if (fs.existsSync(imgPath)) fs.unlinkSync(imgPath)`. -/
def cleanupUpload (fs : String → Bool) (p : String) : String → Bool :=
  if existsSync fs p then unlinkSync fs p else fs

/-- The whole `POST /predict` handler after an upload was deposited at
`imagePath`: run the `try` block, convert a thrown error into the
`catch` block's status-500 structured reply, and run the `finally`
cleanup on every path.  Returns the filesystem after the request together
with the HTTP status and reply body. -/
def predictHandler (modelLoaded : Bool) (decoded : Except String (List Nat))
    (predictFn : Tensor → Except String (List ℚ))
    (labels : List String) (solutions : List (String × RemedyEntry))
    (fs : String → Bool) (imagePath : String) :
    (String → Bool) × Nat × RespBody :=
  let resp :=
    match runPredict modelLoaded decoded predictFn labels solutions with
    | Except.ok r => r
    | Except.error msg => (500, RespBody.failure msg)
  (cleanupUpload fs imagePath, resp)

/-! ## Helper lemmas -/

theorem mem_keys_of_lookup_eq_some {ci : List (Nat × String)} {i : Nat}
    {v : String} (h : ci.lookup i = some v) : i ∈ ci.map Prod.fst := by
  have hs : (ci.lookup i).isSome := by rw [h]; rfl
  rw [List.lookup_isSome_iff] at hs
  obtain ⟨p, hp, he⟩ := hs
  simp only [beq_iff_eq] at he
  exact List.mem_map.mpr ⟨p, hp, he.symm⟩

theorem sortKeysAsc_eq_range {keys : List Nat} {n : Nat}
    (h : keys.Perm (List.range n)) : sortKeysAsc keys = List.range n :=
  List.eq_of_perm_of_sorted
    ((List.perm_insertionSort (· ≤ ·) keys).trans h)
    (List.sorted_insertionSort (· ≤ ·) keys)
    (List.sorted_le_range n)

theorem lookup_enumFrom (l : List String) : ∀ (n i : Nat),
    (List.enumFrom n l).lookup (n + i) = l[i]? := by
  induction l with
  | nil => intro n i; simp [List.enumFrom]
  | cons a l ih =>
    intro n i
    cases i with
    | zero => simp [List.enumFrom, List.lookup]
    | succ j =>
      have hne : ((n + (j + 1)) == n) = false := by
        simp only [beq_eq_false_iff_ne, ne_eq]
        omega
      have hrw : n + (j + 1) = (n + 1) + j := by omega
      simp only [List.enumFrom, List.lookup, hne, List.getElem?_cons_succ]
      rw [hrw]
      exact ih (n + 1) j

/-! ## Claims -/

/-- C1: the label list is built by coercing the mapping's keys to integers,
sorting them ascending and reading the labels in that numeric key order;
for the mapping with keys 2 ↦ "C", 0 ↦ "A", 1 ↦ "B" (declared in that
order) the result is exactly ["A", "B", "C"], and whenever the keys are
exactly the class indices 0..n−1, the label at position i is the value
stored under key i. -/
theorem labelMap_build_numeric_order (ci : List (Nat × String)) (n : Nat)
    (hkeys : (ci.map Prod.fst).Perm (List.range n)) :
    buildLabels [(2, "C"), (0, "A"), (1, "B")] = ["A", "B", "C"] ∧
    ∀ i v, ci.lookup i = some v → (buildLabels ci)[i]? = some v := by
  refine ⟨by rfl, ?_⟩
  intro i v hv
  have hmem : i ∈ ci.map Prod.fst := mem_keys_of_lookup_eq_some hv
  have hin : i < n := by
    have := hkeys.mem_iff.mp hmem
    simpa [List.mem_range] using this
  unfold buildLabels
  rw [sortKeysAsc_eq_range hkeys, List.getElem?_map, List.getElem?_range hin]
  simp [hv]

theorem labelMap_build_numeric_order_witness :
    (buildLabels [(2, "C"), (0, "A"), (1, "B")])[0]? = some "A" :=
  (labelMap_build_numeric_order [(2, "C"), (0, "A"), (1, "B")] 3
    (by decide)).2 0 "A" (by decide)

/-- C10: writing the class-index file as the mapping i ↦ nameᵢ, as the
training script does, and rebuilding the label list in the server by
numerically sorting the mapping's keys yields exactly the original list
of class names in the original order. -/
theorem train_serve_label_roundtrip (names : List String) :
    buildLabels (trainClassIndices names) = names := by
  unfold buildLabels trainClassIndices
  have hkeys : names.enum.map Prod.fst = List.range names.length :=
    List.enum_map_fst names
  rw [hkeys]
  have hsorted : sortKeysAsc (List.range names.length)
      = List.range names.length :=
    (List.sorted_le_range names.length).insertionSort_eq
  rw [hsorted]
  apply List.ext_getElem?
  intro i
  rw [List.getElem?_map]
  by_cases h : i < names.length
  · rw [List.getElem?_range h]
    have he : (List.enumFrom 0 names).lookup (0 + i) = names[i]? :=
      lookup_enumFrom names 0 i
    rw [Nat.zero_add] at he
    have h2 : names.enum.lookup i = names[i]? := he
    simp [h2, List.getElem?_eq_getElem h]
  · have hn : names.length ≤ i := Nat.le_of_not_lt h
    rw [List.getElem?_eq_none (by simpa using hn), List.getElem?_eq_none hn]
    rfl

theorem lt_length_of_getElem?_eq_some {α : Type} {l : List α} {n : Nat}
    {a : α} (h : l[n]? = some a) : n < l.length := by
  by_contra hn
  rw [List.getElem?_eq_none (Nat.le_of_not_lt hn)] at h
  exact Option.noConfusion h

theorem flatten_getElem?_offset (bufs : List (List Nat)) :
    ∀ (k : Nat) (buf : List Nat), bufs[k]? = some buf →
      ∀ (i v : Nat), buf[i]? = some v →
        bufs.flatten[((bufs.take k).map List.length).sum + i]? = some v := by
  induction bufs with
  | nil => intro k buf h; simp at h
  | cons b bufs ih =>
    intro k buf h i v hv
    cases k with
    | zero =>
      simp only [List.getElem?_cons_zero, Option.some.injEq] at h
      subst h
      have hlt := lt_length_of_getElem?_eq_some hv
      simp only [List.flatten_cons, List.take_zero, List.map_nil,
        List.sum_nil, Nat.zero_add]
      rw [List.getElem?_append_left hlt]
      exact hv
    | succ k =>
      simp only [List.getElem?_cons_succ] at h
      have hoff := ih k buf h i v hv
      simp only [List.flatten_cons, List.take_succ_cons, List.map_cons,
        List.sum_cons]
      rw [Nat.add_assoc,
        List.getElem?_append_right (Nat.le_add_right b.length _),
        Nat.add_sub_cancel_left]
      exact hoff

/-- C2: the weight loader reads each shard referenced by the manifest in
manifest-declared order, concatenates the byte buffers in exactly that
order into one contiguous buffer (shard `k`'s byte `i` sits at position
`(sum of the lengths of shards 0..k−1) + i`), the combined byte length is
the sum of the shard byte lengths, and the manifest's weight
specification list is passed through unmodified. -/
theorem weight_loader_concat (readFile : String → List Nat)
    (m : WeightsManifestEntry) :
    (loadModelArtifacts readFile m).weightData
        = (m.paths.map readFile).flatten ∧
    (loadModelArtifacts readFile m).weightData.length
        = ((m.paths.map readFile).map List.length).sum ∧
    (loadModelArtifacts readFile m).weightSpecs = m.weights ∧
    ∀ k buf, (m.paths.map readFile)[k]? = some buf →
      ∀ i v, buf[i]? = some v →
        (loadModelArtifacts readFile m).weightData[
          (((m.paths.map readFile).take k).map List.length).sum + i]?
          = some v := by
  refine ⟨rfl, List.length_flatten _, rfl, ?_⟩
  exact flatten_getElem?_offset _

theorem weight_loader_concat_witness :
    (loadModelArtifacts (fun _ => [7, 9]) ⟨["s1", "s2"], []⟩).weightData[2]?
      = some 7 := by
  have h := (weight_loader_concat (fun _ => [7, 9]) ⟨["s1", "s2"], []⟩).2.2.2
    1 [7, 9] (by decide) 0 7 (by decide)
  simpa using h

/-- C3: preprocessing converts each pixel channel value v ∈ [0,255] to a
float and divides by 255, so value 255 maps to exactly 1 (hence within
1e-6 of 1.0) and value 0 maps to exactly 0; the tensor has shape
[1, 224, 224, 3] (its flat data has 1·224·224·3 = 150528 entries) and
all its values lie in [0, 1]. -/
theorem preprocess_normalization (pixels : List Nat)
    (hlen : pixels.length = 150528) (hrange : ∀ v ∈ pixels, v ≤ 255) :
    (preprocess pixels).shape = [1, 224, 224, 3] ∧
    (preprocess pixels).data.length = 150528 ∧
    ∀ (i v : Nat), pixels[i]? = some v →
      (preprocess pixels).data[i]? = some ((v : ℚ) / 255) ∧
      (v = 255 → (v : ℚ) / 255 = 1 ∧ |(v : ℚ) / 255 - 1| ≤ 1 / 1000000) ∧
      (v = 0 → (v : ℚ) / 255 = 0) ∧
      0 ≤ (v : ℚ) / 255 ∧ (v : ℚ) / 255 ≤ 1 := by
  refine ⟨rfl, ?_, ?_⟩
  · simp only [preprocess, fromPixels, Tensor.divScalar, Tensor.expandDims,
      List.length_map, hlen]
  · intro i v hv
    have hmem : v ∈ pixels := List.getElem?_mem hv
    have hv255 : v ≤ 255 := hrange v hmem
    refine ⟨?_, ?_, ?_, ?_, ?_⟩
    · simp only [preprocess, fromPixels, Tensor.divScalar, Tensor.expandDims,
        List.getElem?_map, hv, Option.map_some']
    · intro h255; subst h255; norm_num
    · intro h0; subst h0; norm_num
    · positivity
    · rw [div_le_one (by norm_num)]
      exact_mod_cast hv255

theorem preprocess_normalization_witness :
    (preprocess (List.replicate 150528 255)).shape = [1, 224, 224, 3] ∧
    (preprocess (List.replicate 150528 255)).data[0]?
      = some ((255 : ℚ) / 255) := by
  have h := preprocess_normalization (List.replicate 150528 255)
    (List.length_replicate 150528 255)
    (fun v hv => by rw [List.eq_of_mem_replicate hv])
  exact ⟨h.1, (h.2.2 0 255 (List.getElem?_replicate_of_lt (by norm_num))).1⟩

theorem le_foldl_max (xs : List ℚ) : ∀ (x : ℚ), ∀ y ∈ x :: xs,
    y ≤ xs.foldl max x := by
  induction xs with
  | nil =>
    intro x y hy
    simp only [List.mem_singleton] at hy
    simp [hy]
  | cons a xs ih =>
    intro x y hy
    simp only [List.foldl_cons]
    rcases List.mem_cons.mp hy with rfl | hy'
    · exact le_trans (le_max_left y a) (ih (max y a) _ (List.mem_cons_self _ _))
    · rcases List.mem_cons.mp hy' with rfl | hy''
      · exact le_trans (le_max_right x y)
          (ih (max x y) _ (List.mem_cons_self _ _))
      · exact ih (max x a) y (List.mem_cons_of_mem _ hy'')

theorem foldl_max_mem (xs : List ℚ) : ∀ (x : ℚ), xs.foldl max x ∈ x :: xs := by
  induction xs with
  | nil => intro x; simp
  | cons a xs ih =>
    intro x
    simp only [List.foldl_cons]
    rcases List.mem_cons.mp (ih (max x a)) with h1 | h2
    · rw [h1]
      rcases max_choice x a with h3 | h3 <;> rw [h3] <;> simp
    · exact List.mem_cons_of_mem _ (List.mem_cons_of_mem _ h2)

theorem mathMax_mem {l : List ℚ} (h : l ≠ []) : mathMax l ∈ l := by
  cases l with
  | nil => exact absurd rfl h
  | cons x xs => exact foldl_max_mem xs x

theorem le_mathMax {l : List ℚ} : ∀ y ∈ l, y ≤ mathMax l := by
  cases l with
  | nil => intro y hy; exact absurd hy (List.not_mem_nil y)
  | cons x xs => exact le_foldl_max xs x

theorem indexOfQ_getElem? {v : ℚ} {l : List ℚ} (h : v ∈ l) :
    l[indexOfQ v l]? = some v := by
  induction l with
  | nil => exact absurd h (List.not_mem_nil v)
  | cons x xs ih =>
    by_cases hx : x = v
    · simp [indexOfQ, hx]
    · have hm : v ∈ xs := by
        rcases List.mem_cons.mp h with h1 | h1
        · exact absurd h1.symm hx
        · exact h1
      simp [indexOfQ, hx, ih hm]

theorem getElem?_ne_of_lt_indexOfQ {v : ℚ} : ∀ {l : List ℚ} (j : Nat),
    j < indexOfQ v l → l[j]? ≠ some v := by
  intro l
  induction l with
  | nil => intro j hj; simp [indexOfQ] at hj
  | cons x xs ih =>
    intro j hj
    by_cases hx : x = v
    · simp [indexOfQ, hx] at hj
    · cases j with
      | zero =>
        simp only [List.getElem?_cons_zero, ne_eq, Option.some.injEq]
        exact hx
      | succ j =>
        simp only [indexOfQ, if_neg hx, Nat.add_lt_add_iff_right] at hj
        simpa using ih j hj

/-- C4: the predicted class index is the first index at which the maximum
of the output vector occurs (every earlier position holds a strictly
smaller value, every value is at most the one at `maxIdx`), the
confidence is read at exactly that index, and on the output vector
[0.2, 0.5, 0.5, 0.1] the class index is 1 with reported confidence
50.00. -/
theorem argmax_first_of_max (data : List ℚ) (hne : data ≠ []) :
    data[maxIdx data]? = some (mathMax data) ∧
    (∀ j, j < maxIdx data → data[j]? ≠ some (mathMax data)) ∧
    (∀ v ∈ data, v ≤ mathMax data) ∧
    data.getD (maxIdx data) 0 = mathMax data ∧
    maxIdx [(2 : ℚ)/10, 5/10, 5/10, 1/10] = 1 ∧
    reportedConfidence [(2 : ℚ)/10, 5/10, 5/10, 1/10] = 50 := by
  have hmem : mathMax data ∈ data := mathMax_mem hne
  have hget : data[maxIdx data]? = some (mathMax data) := indexOfQ_getElem? hmem
  refine ⟨hget, fun j hj => getElem?_ne_of_lt_indexOfQ j hj, le_mathMax, ?_,
    ?_, ?_⟩
  · rw [List.getD_eq_getElem?_getD, hget]; rfl
  · norm_num [maxIdx, mathMax, indexOfQ]
  · norm_num [reportedConfidence, maxIdx, mathMax, indexOfQ, toFixed2,
      List.getD]

theorem argmax_first_of_max_witness :
    [(1 : ℚ)].getD (maxIdx [(1 : ℚ)]) 0 = mathMax [(1 : ℚ)] :=
  (argmax_first_of_max [(1 : ℚ)] (by simp)).2.2.2.1

/-- C5: for every request whose upload was deposited at `imagePath`, the
file at `imagePath` no longer exists when the handler returns, whatever
the model readiness, the decode result, or the inference result — i.e.
on the success path and on every failure path. -/
theorem upload_always_deleted (modelLoaded : Bool)
    (decoded : Except String (List Nat))
    (predictFn : Tensor → Except String (List ℚ))
    (labels : List String) (solutions : List (String × RemedyEntry))
    (fs : String → Bool) (imagePath : String) :
    (predictHandler modelLoaded decoded predictFn labels solutions fs
      imagePath).1 imagePath = false := by
  unfold predictHandler cleanupUpload existsSync unlinkSync
  by_cases h : fs imagePath <;> simp [h]

/-- C8: a request arriving while the model is not yet loaded is answered
with the status-500 structured not-ready error, and the reply is
independent of the inference function — inference is never run against
an absent model. -/
theorem not_ready_rejected (decoded : Except String (List Nat))
    (f g : Tensor → Except String (List ℚ))
    (labels : List String) (solutions : List (String × RemedyEntry))
    (fs : String → Bool) (imagePath : String) :
    (predictHandler false decoded f labels solutions fs imagePath).2
      = (500, RespBody.failure "Model not loaded yet.") ∧
    predictHandler false decoded f labels solutions fs imagePath
      = predictHandler false decoded g labels solutions fs imagePath := by
  exact ⟨rfl, rfl⟩

/-- C6: resolving a class index against the label list is total and an
index out of bounds of the label list (or any position where no label is
present) resolves to the literal string Unknown. -/
theorem out_of_bounds_label_unknown (labels : List String) (i : Nat)
    (h : labels.length ≤ i) :
    resolveLabel labels i = "Unknown" ∧
    ∀ (ls : List String) (j : Nat), ls[j]? = none →
      resolveLabel ls j = "Unknown" := by
  constructor
  · unfold resolveLabel
    rw [List.getElem?_eq_none h]
  · intro ls j hj
    unfold resolveLabel
    rw [hj]

theorem out_of_bounds_label_unknown_witness :
    resolveLabel ["healthy"] 3 = "Unknown" :=
  (out_of_bounds_label_unknown ["healthy"] 3 (by decide)).1

/-- C7: remedy lookup returns the catalog entry for the label when one is
present; when the catalog is entirely absent (empty) or the label is not
found it returns exactly the fixed default entry, whose solution and
pesticide texts are the stated literals and in particular never empty. -/
theorem remedy_lookup_fallback (solutions : List (String × RemedyEntry))
    (label : String) :
    (∀ e, solutions.lookup label = some e →
      lookupRemedy solutions label = e) ∧
    (solutions.lookup label = none →
      lookupRemedy solutions label = defaultRemedy) ∧
    lookupRemedy [] label = defaultRemedy ∧
    defaultRemedy.solution = "Use proper fertilizers and care." ∧
    defaultRemedy.pesticide = "Apply recommended pesticide." ∧
    defaultRemedy.solution ≠ "" ∧ defaultRemedy.pesticide ≠ "" := by
  refine ⟨?_, ?_, rfl, rfl, rfl, by decide, by decide⟩
  · intro e he
    unfold lookupRemedy
    rw [he]
    rfl
  · intro he
    unfold lookupRemedy
    rw [he]
    rfl

theorem remedy_lookup_fallback_witness :
    lookupRemedy [] "Tomato_Late_blight" = defaultRemedy :=
  (remedy_lookup_fallback [] "Tomato_Late_blight").2.1 rfl

theorem round_le_round_rat {a b : ℚ} (h : a ≤ b) : round a ≤ round b := by
  rw [round_eq, round_eq]
  exact Int.floor_le_floor (by linarith)

/-- C9: the reported confidence percentage is the confidence in [0,1]
multiplied by 100 and rounded to 2 decimal places, and it always lies in
[0, 100]. -/
theorem confidence_percent_in_range (c : ℚ) (h0 : 0 ≤ c) (h1 : c ≤ 1) :
    confidencePercentOf c = (round (c * 100 * 100) : ℚ) / 100 ∧
    0 ≤ confidencePercentOf c ∧ confidencePercentOf c ≤ 100 := by
  have hlo : (0 : ℤ) ≤ round (c * 100 * 100) := by
    have := round_le_round_rat (by linarith : (0 : ℚ) ≤ c * 100 * 100)
    simpa using this
  have hhi : round (c * 100 * 100) ≤ (10000 : ℤ) := by
    have := round_le_round_rat (by linarith : c * 100 * 100 ≤ (10000 : ℚ))
    have h10000 : round ((10000 : ℚ)) = (10000 : ℤ) := by norm_num
    rw [h10000] at this
    exact this
  refine ⟨rfl, ?_, ?_⟩
  · unfold confidencePercentOf toFixed2
    apply div_nonneg _ (by norm_num)
    exact_mod_cast hlo
  · unfold confidencePercentOf toFixed2
    rw [div_le_iff₀ (by norm_num : (0 : ℚ) < 100)]
    calc ((round (c * 100 * 100) : ℤ) : ℚ) ≤ ((10000 : ℤ) : ℚ) := by
          exact_mod_cast hhi
      _ = 100 * 100 := by norm_num

theorem confidence_percent_in_range_witness :
    confidencePercentOf ((1 : ℚ)/2) ≤ 100 :=
  (confidence_percent_in_range ((1 : ℚ)/2) (by norm_num) (by norm_num)).2.2
